import Mathlib

/-!
Verification of the `param` plugin module (`plugins/__init__.py`).

The module is shallowly embedded: Python dicts become ordered association
lists (`List (String × _)`) with first-match lookup and in-place overwrite,
the process-wide globals `RECORD_CACHE` and `unknown_parameters` become an
explicit state record threaded through each plugin call, the remote store
client is an oracle (`Store`) mapping requests to responses, raised Python
exceptions become `Except`-style error results, and every remote call a
plugin issues is recorded in an output trace so that call counts can be
stated.
-/

namespace Param

/-- A Python value as it occurs in this module: strings, integers, booleans. -/
inductive Value where
  | vstr (s : String)
  | vint (n : Int)
  | vbool (b : Bool)
  deriving DecidableEq, Repr

/-- Python `==`/`!=` semantics on the values above (`True == 1`, `False == 0`;
values of unrelated types compare unequal). -/
def pyEq : Value → Value → Bool
  | .vstr a, .vstr b => a = b
  | .vint a, .vint b => a = b
  | .vbool a, .vbool b => a = b
  | .vbool a, .vint b => (if a then (1 : Int) else 0) = b
  | .vint a, .vbool b => a = (if b then (1 : Int) else 0)
  | _, _ => false

/-- Python dict read: first (and, for dicts, only) binding of the key. -/
def dictGet {α : Type} : List (String × α) → String → Option α
  | [], _ => none
  | (k', v) :: rest, k => if k' = k then some v else dictGet rest k

/-- Python dict assignment `m[k] = v`: overwrite in place if the key is
present (preserving insertion order), else append the new binding. -/
def dictSet {α : Type} : List (String × α) → String → α → List (String × α)
  | [], k, v => [(k, v)]
  | (k', v') :: rest, k, v =>
      if k' = k then (k, v) :: rest else (k', v') :: dictSet rest k v

/-- The keys of a dict, in insertion order. -/
def keys {α : Type} (m : List (String × α)) : List String :=
  m.map Prod.fst

/-- Whether `pat` is a prefix of the second list (`Bool`-valued, executable). -/
def isPrefixB : List Char → List Char → Bool
  | [], _ => true
  | _ :: _, [] => false
  | a :: as, b :: bs => a = b && isPrefixB as bs

/-- Python substring containment `needle in haystack` on character lists. -/
def containsB (needle : List Char) : List Char → Bool
  | [] => isPrefixB needle []
  | c :: rest => isPrefixB needle (c :: rest) || containsB needle rest

/-- Split a name at the LAST occurrence of `"__"`, exactly as the greedy
regular expression `re.search("(.*)__(.*)", name)` groups it; `none` when the
name contains no `"__"`. -/
def splitLastDunderAux : List Char → Option (List Char × List Char)
  | c1 :: c2 :: rest =>
      (match splitLastDunderAux (c2 :: rest) with
       | some (pre, post) => some (c1 :: pre, post)
       | none => if c1 = '_' ∧ c2 = '_' then some ([], rest) else none)
  | _ => none

/-- String version of `splitLastDunderAux`: the two groups of the regex
`"(.*)__(.*)"` applied to an attribute name. -/
def splitLastDunder (name : String) : Option (String × String) :=
  (splitLastDunderAux name.data).map (fun p => (String.mk p.1, String.mk p.2))

/-- The base group of `splitLastDunder`, used to talk about which per-attribute
option bucket an attribute name writes to. -/
def splitsBase (name : String) : Option String :=
  (splitLastDunder name).map Prod.fst

/-- CPython's `uuid.UUID(hex-string)` constructor on its string argument:
strip `urn:` and `uuid:` markers, strip surrounding braces, drop dashes, and
require exactly 32 hexadecimal digits; `none` models the raised `ValueError`.
The returned canonical form (lower-cased 32-digit hex) stands for the parsed
UUID value. -/
def replaceAllAux (pat : List Char) : Nat → List Char → List Char
  | 0, s => s
  | _ + 1, [] => []
  | fuel + 1, c :: rest =>
      if isPrefixB pat (c :: rest) then
        replaceAllAux pat fuel (List.drop (pat.length - 1) rest)
      else
        c :: replaceAllAux pat fuel rest

/-- Drop leading and trailing brace characters, as `str.strip("\x7b\x7d")` does. -/
def stripBraces (cs : List Char) : List Char :=
  ((cs.dropWhile (fun c => c = '{' || c = '}')).reverse.dropWhile
      (fun c => c = '{' || c = '}')).reverse

/-- A hexadecimal digit, as accepted by Python's `int(_, 16)`. -/
def isHexDigitB (c : Char) : Bool :=
  ('0' ≤ c && c ≤ '9') || ('a' ≤ c && c ≤ 'f') || ('A' ≤ c && c ≤ 'F')

/-- See the doc comment on `replaceAllAux`: the full `uuid.UUID` string parse. -/
def uuidParse (s : String) : Option String :=
  let cs1 := replaceAllAux "urn:".data s.data.length s.data
  let cs2 := replaceAllAux "uuid:".data cs1.length cs1
  let cs3 := (stripBraces cs2).filter (fun c => c ≠ '-')
  if cs3.length = 32 ∧ cs3.all isHexDigitB then
    some (String.mk (cs3.map Char.toLower))
  else
    none

/-- An attribute descriptor as exposed by the typed-entity introspection:
`attr.type.type_string()` is the only part this module reads. -/
structure AttrDescr where
  type_string : String
  deriving DecidableEq, Repr

/-- A typed entity definition, as consumed by `type_to_map`: its own
attributes (`cls.attributes`, an insertion-ordered dict), its evaluated
default values (`cls.get_default_values()`, where a binding to `none` models
a Python `None` default expression and an absent key models no entry at
all), and its transitive parent entities (`cls.get_all_parent_entities()`).
Default expressions are modelled by their evaluated values, since
`execute(None, None, None)` is evaluated context-free. -/
structure Entity where
  name : String
  namespaceFullName : String
  attributes : List (String × AttrDescr)
  defaults : List (String × Option Value)
  parents : List Entity

/-- `str(cls)`: the entity's fully qualified type name. -/
def entityTypeStr (cls : Entity) : String :=
  cls.namespaceFullName ++ "::" ++ cls.name

/-- One field of the derived form schema: type descriptor plus optional
`default` and `options` keys (a missing dict key is `none`). -/
structure AttrSpec where
  type : String
  default : Option Value
  options : Option (List (String × Value))
  deriving DecidableEq, Repr

/-- The derived form schema (`type_map`). -/
structure TypeMap where
  type : String
  attributes : List (String × AttrSpec)
  options : List (String × Value)
  deriving DecidableEq, Repr

/-- The Python exceptions this module can raise, as explicit error values. -/
inductive PErr where
  | envNotConfigured
  | uuidValueError
  | indexErrorEmptyName (name : String)
  | keyErrorDefault (name : String)
  | attributeErrorNoneDefault (name : String)
  | notSingletonForm
  | attrNotDefined (name : String) (form : String)
  | listFailed (code : Nat) (message : String)
  | tooManyRecords (form : String) (count : Nat)
  | keyErrorCache (key : String)
  deriving DecidableEq, Repr

/-- `name not in attributes` check used while flattening inheritance:
add the pair only when its key is absent. -/
def insertAbsent (m : List (String × AttrDescr)) (p : String × AttrDescr) :
    List (String × AttrDescr) :=
  if (dictGet m p.1).isSome then m else m ++ [p]

/-- Merge one parent entity's attributes into the working set, skipping the
implicit universal base type `std::Entity` entirely. -/
def addParentAttrs (m : List (String × AttrDescr)) (parent : Entity) :
    List (String × AttrDescr) :=
  if parent.name = "Entity" ∧ parent.namespaceFullName = "std" then m
  else parent.attributes.foldl insertAbsent m

/-- Lines 38-46 of `type_to_map`: the working set of attributes — the
entity's own attributes followed by inherited attributes not already
present (subtype attributes win over supertype attributes). -/
def collectAttributes (cls : Entity) : List (String × AttrDescr) :=
  cls.parents.foldl addParentAttrs cls.attributes

/-- `defaults[name].execute(...)` guarded by presence and non-`None`:
the evaluated default when one exists, else `none`. -/
def defaultOf (defaults : List (String × Option Value)) (name : String) : Option Value :=
  match dictGet defaults name with
  | some (some v) => some v
  | _ => none

/-- Accumulator of the per-attribute classification loop of `type_to_map`:
the genuine fields, the schema-level options, and the `attribute_options`
defaultdict (base name → option dict). -/
structure Acc where
  fields : List (String × AttrSpec)
  sopts : List (String × Value)
  aopts : List (String × List (String × Value))
  deriving DecidableEq, Repr

/-- The `elif obj: ... else: ...` part of the classification loop: a name
matching `(.*)__(.*)` evaluates its default unconditionally (raising a
`KeyError` when absent and an `AttributeError` when the default is `None`)
and stashes it in `attribute_options`; any other name becomes a genuine
field with its type string and optional default. -/
def processOne (defaults : List (String × Option Value)) (name : String)
    (a : AttrDescr) (acc : Acc) : Except PErr Acc :=
  match splitLastDunder name with
  | some (base, opt) =>
      (match dictGet defaults name with
       | some (some v) =>
           .ok { acc with aopts :=
             (dictSet acc.aopts base (dictSet ((dictGet acc.aopts base).getD []) opt v)) }
       | some none => .error (.attributeErrorNoneDefault name)
       | none => .error (.keyErrorDefault name))
  | none =>
      .ok { acc with fields :=
        (dictSet acc.fields name
          { type := a.type_string, default := defaultOf defaults name, options := none }) }

/-- One iteration of the classification loop (lines 48-60): names starting
with `_` that carry a non-`None` default become schema-level options
(sentinel stripped); everything else goes through `processOne`. `name[0]`
on an empty name models Python's `IndexError`. -/
def stepOne (defaults : List (String × Option Value)) (name : String)
    (a : AttrDescr) (acc : Acc) : Except PErr Acc :=
  match name.data with
  | [] => .error (.indexErrorEmptyName name)
  | c :: cs =>
      (match (if c = '_' then dictGet defaults name else none) with
       | some (some v) =>
           .ok { acc with sopts := dictSet acc.sopts (String.mk cs) v }
       | some none => processOne defaults name a acc
       | none => processOne defaults name a acc)

/-- The classification loop over the whole working set. -/
def processAttrs (defaults : List (String × Option Value)) :
    List (String × AttrDescr) → Acc → Except PErr Acc
  | [], acc => .ok acc
  | (name, a) :: rest, acc =>
      (match stepOne defaults name a acc with
       | .ok acc2 => processAttrs defaults rest acc2
       | .error e => .error e)

/-- Lines 62-66: if no explicit `modifier` was set for a field that received
other options, default it to `"rw"`. -/
def withModifier (opts : List (String × Value)) : List (String × Value) :=
  if (dictGet opts "modifier").isSome then opts else dictSet opts "modifier" (.vstr "rw")

/-- One iteration of the merge loop: attach a collected per-attribute option
dict to the corresponding field, ignoring bases that are not fields. -/
def mergeStep (fl : List (String × AttrSpec)) (p : String × List (String × Value)) :
    List (String × AttrSpec) :=
  match dictGet fl p.1 with
  | none => fl
  | some spec => dictSet fl p.1 { spec with options := some (withModifier p.2) }

/-- The merge loop over all of `attribute_options`. -/
def mergeOptions (fields : List (String × AttrSpec))
    (aopts : List (String × List (String × Value))) : List (String × AttrSpec) :=
  aopts.foldl mergeStep fields

/-- A name that is a genuine field name for the classification loop: nonempty,
not starting with the option sentinel `_` and not matching `(.*)__(.*)`. -/
def isPlain (n : String) : Bool :=
  match n.data with
  | [] => false
  | c :: _ => c ≠ '_' && (splitLastDunder n).isNone

/-- Nested lookup into the `attribute_options` defaultdict: the option `o`
recorded under base `b` (with the defaultdict's implicit empty inner dict). -/
def lookup2 (A : List (String × List (String × Value))) (b o : String) : Option Value :=
  dictGet ((dictGet A b).getD []) o

/-- The Schema Deriver `type_to_map(cls)`: entity definition → form schema,
or the exception the classification loop raises. -/
def type_to_map (cls : Entity) : Except PErr TypeMap :=
  match processAttrs cls.defaults (collectAttributes cls) ⟨[], [], []⟩ with
  | .error e => .error e
  | .ok acc =>
      .ok { type := entityTypeStr cls,
            attributes := mergeOptions acc.fields acc.aopts,
            options := acc.sopts }

/-- A record's field mapping, `record["fields"]`. -/
abbrev Fields := List (String × Value)

/-- One entry of the module-level `unknown_parameters` registry. -/
structure UnknownEntry where
  parameter : String
  source : String
  metadata : List (String × String)
  deriving DecidableEq, Repr

/-- The module-level mutable state: the `RECORD_CACHE` dict and the
`unknown_parameters` registry of the export machinery. -/
structure PState where
  RECORD_CACHE : List (String × Fields)
  unknown_parameters : List UnknownEntry
  deriving DecidableEq, Repr

/-- Response of `client.get_record`: status code, `result["record"]["fields"]`
and `result["record"]["id"]`. -/
structure RecordResp where
  code : Nat
  fields : Fields
  recId : String
  deriving DecidableEq, Repr

/-- One record of a `list_records` response: `record["id"]` and (when
`include_record` was requested) `record["fields"]`. -/
structure ListEntry where
  id : String
  fields : Fields
  deriving DecidableEq, Repr

/-- Response of `client.list_records`: status code, `result["records"]` and
`result["message"]` (read on errors). -/
structure ListResp where
  code : Nat
  records : List ListEntry
  message : String
  deriving DecidableEq, Repr

/-- The remote store client as a response oracle: `get_record` keyed by the
record id, `list_records` keyed by form type and the `include_record` flag,
`set_param` keyed by parameter id and value (returning its acknowledgement). -/
structure Store where
  getRecord : String → RecordResp
  listRecords : String → Bool → ListResp
  setParam : String → String → Value

/-- The remote calls a plugin invocation issues, in order. -/
inductive RemoteCall where
  | getRecord (tid : String) (id : String)
  | putForm (tid : String) (id : String) (form : TypeMap)
  | listRecords (tid : String) (form : String) (includeRecord : Bool)
  | setParam (tid : String) (id : String) (value : String) (source : String)
      (metadata : List (String × String))
  deriving DecidableEq, Repr

/-- Value returned by a resolution plugin: a concrete field value or the
`Unknown(source=name)` sentinel. -/
inductive ResolveResult where
  | value (v : Value)
  | unknown (source : String)
  deriving DecidableEq, Repr

/-- Result of a resolution plugin call: the state after the call, the remote
calls issued (also on a raising path), and the returned value or the raised
exception. -/
abbrev GRes := PState × List RemoteCall × Except PErr ResolveResult

/-- The `{"type": "form", "record_id": instance}` metadata of `get`. -/
def formRecordMeta (inst : String) : List (String × String) :=
  [("type", "form"), ("record_id", inst)]

/-- Lines 100-106 of `get`: once fields are available, return the requested
field, or register an Unknown entry and return the sentinel. -/
def fieldsLookup (name inst : String) (fields : Fields) (st : PState)
    (calls : List RemoteCall) : GRes :=
  match dictGet fields name with
  | some v => (st, calls, .ok (.value v))
  | none =>
      ({ st with unknown_parameters :=
          st.unknown_parameters ++ [⟨name, "form", formRecordMeta inst⟩] },
       calls, .ok (.unknown name))

/-- The `get(name, instance)` plugin. On a cache miss the instance string is
parsed as a UUID (raising `ValueError` on failure), the record is fetched,
and a 200 response populates the cache while any other response registers an
Unknown entry; with fields in hand the requested field is looked up. -/
def get (env : Option String) (store : Store) (name inst : String)
    (st : PState) : GRes :=
  match env with
  | none => (st, [], .error .envNotConfigured)
  | some e =>
      (match dictGet st.RECORD_CACHE inst with
       | some fields => fieldsLookup name inst fields st []
       | none =>
           (match uuidParse inst with
            | none => (st, [], .error .uuidValueError)
            | some rid =>
                let resp := store.getRecord rid
                if resp.code = 200 then
                  fieldsLookup name inst resp.fields
                    { st with RECORD_CACHE := dictSet st.RECORD_CACHE inst resp.fields }
                    [RemoteCall.getRecord e rid]
                else
                  ({ st with unknown_parameters :=
                      st.unknown_parameters ++ [⟨name, "form", formRecordMeta inst⟩] },
                   [RemoteCall.getRecord e rid], .ok (.unknown name))))

/-- Lines 221-228 of `one`: the zero-records branch — return the declared
default if there is one, else register a form-tagged Unknown entry and
return the sentinel. -/
def oneZeroRecords (name : String) (tm : TypeMap) (st : PState)
    (calls : List RemoteCall) : GRes :=
  match (dictGet tm.attributes name).bind AttrSpec.default with
  | some d => (st, calls, .ok (.value d))
  | none =>
      ({ st with unknown_parameters :=
          st.unknown_parameters ++ [⟨name, "form", [("type", "form"), ("form", tm.type)]⟩] },
       calls, .ok (.unknown name))

/-- The `one(name, entity)` plugin: derive the schema, require the singleton
`record_count == 1` option and the attribute to be declared, push the form,
list its records, and resolve against zero / one / many records. The
`result.code == 404` test from line 221 is kept although the line-218 raise
on any non-200 code makes it unreachable. -/
def one (env : Option String) (store : Store) (name : String) (entity : Entity)
    (st : PState) : GRes :=
  match env with
  | none => (st, [], .error .envNotConfigured)
  | some e =>
      (match type_to_map entity with
       | .error err => (st, [], .error err)
       | .ok tm =>
           (match dictGet tm.options "record_count" with
            | none => (st, [], .error .notSingletonForm)
            | some rc =>
                if pyEq rc (.vint 1) = false then (st, [], .error .notSingletonForm)
                else if (dictGet tm.attributes name).isNone then
                  (st, [], .error (.attrNotDefined name tm.type))
                else
                  let calls := [RemoteCall.putForm e tm.type tm,
                                RemoteCall.listRecords e tm.type false]
                  let lresp := store.listRecords tm.type false
                  if lresp.code ≠ 200 then
                    (st, calls, .error (.listFailed lresp.code lresp.message))
                  else if lresp.code = 404 ∨ lresp.records.length = 0 then
                    oneZeroRecords name tm st calls
                  else if lresp.records.length > 1 then
                    (st, calls, .error (.tooManyRecords tm.type lresp.records.length))
                  else
                    (match lresp.records.head? with
                     | none => (st, calls, .error (.keyErrorCache "records"))
                     | some r =>
                         let gresp := store.getRecord r.id
                         let calls2 := calls ++ [RemoteCall.getRecord e r.id]
                         (match dictGet gresp.fields name with
                          | some v => (st, calls2, .ok (.value v))
                          | none =>
                              ({ st with unknown_parameters :=
                                  st.unknown_parameters ++
                                    [⟨name, "form",
                                      [("type", "form"), ("record_id", gresp.recId)]⟩] },
                               calls2, .ok (.unknown name))))))

/-- The textual marker `report` greps for in its value argument. -/
def unknownMarker : String := "inmanta.execute.util.Unknown"

/-- The `report(name, value)` plugin. Note the source's order: the
Unknown-substring suppression check runs BEFORE the environment check.
The call returns Python `None` (here `none`) when suppressed, else the
`set_param` acknowledgement; the state is returned unchanged because the
function never touches the cache or the registry. -/
def report (env : Option String) (store : Store) (name value : String)
    (st : PState) : PState × List RemoteCall × Except PErr (Option Value) :=
  if containsB unknownMarker.data value.data then (st, [], .ok none)
  else
    match env with
    | none => (st, [], .error .envNotConfigured)
    | some e =>
        (st, [RemoteCall.setParam e name value "report" [("type", "report")]],
         .ok (some (store.setParam name value)))

/-! Concrete fixtures used by counterexamples and witnesses. -/

/-- A store whose calls all succeed but whose listings are empty. -/
def store200 : Store :=
  ⟨fun _ => ⟨200, [], ""⟩, fun _ _ => ⟨200, [], ""⟩, fun _ _ => .vstr "ok"⟩

/-- A store whose `list_records` answers 404 not-found. -/
def store404 : Store :=
  ⟨fun _ => ⟨200, [], ""⟩, fun _ _ => ⟨404, [], "not found"⟩, fun _ _ => .vstr "ok"⟩

/-- A singleton form entity: `record_count = 1`, a `hostname` attribute with
no default and a `replicas` attribute with default `1`. -/
def entOne : Entity :=
  { name := "F", namespaceFullName := "m",
    attributes := [("_record_count", ⟨"number"⟩), ("hostname", ⟨"string"⟩),
                   ("replicas", ⟨"number"⟩)],
    defaults := [("_record_count", some (.vint 1)), ("replicas", some (.vint 1))],
    parents := [] }

/-- The schema `type_to_map` derives from `entOne`. -/
def tmOne : TypeMap :=
  { type := "m::F",
    attributes := [("hostname", { type := "string", default := none, options := none }),
                   ("replicas", { type := "number", default := some (.vint 1), options := none })],
    options := [("record_count", .vint 1)] }

/-- An entity whose derived schema has no `record_count` option. -/
def entPlain : Entity := ⟨"P", "m", [("a", ⟨"string"⟩)], [], []⟩

/-- The schema `type_to_map` derives from `entPlain`. -/
def tmPlain : TypeMap :=
  { type := "m::P",
    attributes := [("a", { type := "string", default := none, options := none })],
    options := [] }

/-- An entity redeclaring `y` that its parent also declares; the parent adds
`z`, and the implicit `std::Entity` base carries an ignored `w`. -/
def entChild : Entity :=
  { name := "C", namespaceFullName := "m",
    attributes := [("y", ⟨"string"⟩)],
    defaults := [],
    parents := [⟨"P", "m", [("y", ⟨"number"⟩), ("z", ⟨"bool"⟩)], [], []⟩,
                ⟨"Entity", "std", [("w", ⟨"string"⟩)], [], []⟩] }

/-- An entity declaring a per-attribute option `a__x` with no recorded
default. -/
def entBadOpt : Entity := ⟨"B", "m", [("a__x", ⟨"string"⟩)], [], []⟩

/-- An entity exercising all three branches of Claim C4: plain `x` with
`x__modifier = "ro"`, plain `y` with no options, plain `z` with a non-modifier
option `z__opt` and no `z__modifier`. -/
def entMods : Entity :=
  { name := "C4", namespaceFullName := "m",
    attributes := [("x", ⟨"string"⟩), ("x__modifier", ⟨"string"⟩), ("y", ⟨"number"⟩),
                   ("z", ⟨"string"⟩), ("z__opt", ⟨"string"⟩)],
    defaults := [("x__modifier", some (.vstr "ro")), ("z__opt", some (.vstr "w"))],
    parents := [] }

/-- The schema `type_to_map` derives from `entMods`. -/
def tmMods : TypeMap :=
  { type := "m::C4",
    attributes := [("x", { type := "string", default := none,
                           options := some [("modifier", .vstr "ro")] }),
                   ("y", { type := "number", default := none, options := none }),
                   ("z", { type := "string", default := none,
                           options := some [("opt", .vstr "w"), ("modifier", .vstr "rw")] })],
    options := [] }

theorem dictGet_dictSet_self {α : Type} (m : List (String × α)) (k : String) (v : α) :
    dictGet (dictSet m k v) k = some v := by
  induction m with
  | nil => simp [dictGet, dictSet]
  | cons p rest ih =>
      obtain ⟨k', v'⟩ := p
      by_cases h : k' = k
      · simp [dictGet, dictSet, h]
      · simp [dictGet, dictSet, h, ih]

theorem dictGet_dictSet_ne {α : Type} (m : List (String × α)) (k k' : String) (v : α)
    (h : k' ≠ k) : dictGet (dictSet m k v) k' = dictGet m k' := by
  have h' : ¬ k = k' := Ne.symm h
  induction m with
  | nil => simp [dictGet, dictSet, h']
  | cons p rest ih =>
      obtain ⟨k₀, v₀⟩ := p
      by_cases h0 : k₀ = k
      · subst h0
        simp [dictGet, dictSet, h']
      · simp only [dictSet, if_neg h0]
        by_cases h1 : k₀ = k'
        · simp [dictGet, h1]
        · simp [dictGet, h1, ih]

theorem dictGet_eq_none_iff {α : Type} (m : List (String × α)) (k : String) :
    dictGet m k = none ↔ k ∉ keys m := by
  induction m with
  | nil => simp [dictGet, keys]
  | cons p rest ih =>
      obtain ⟨k', v'⟩ := p
      by_cases h : k' = k
      · simp [dictGet, keys, h]
      · have h' : ¬ k = k' := Ne.symm h
        simp [dictGet, keys, h, ih, h']

theorem dictGet_isSome_iff {α : Type} (m : List (String × α)) (k : String) :
    (dictGet m k).isSome = true ↔ k ∈ keys m := by
  constructor
  · intro h
    by_contra hmem
    rw [(dictGet_eq_none_iff m k).2 hmem] at h
    simp at h
  · intro h
    cases hd : dictGet m k with
    | some v => simp
    | none => exact absurd h ((dictGet_eq_none_iff m k).1 hd)

theorem keys_dictSet {α : Type} (m : List (String × α)) (k : String) (v : α) :
    keys (dictSet m k v) = if k ∈ keys m then keys m else keys m ++ [k] := by
  induction m with
  | nil => simp [dictSet, keys]
  | cons p rest ih =>
      obtain ⟨k', v'⟩ := p
      by_cases h : k' = k
      · simp [dictSet, keys, h]
      · have h' : ¬ k = k' := Ne.symm h
        simp only [keys] at ih ⊢
        simp only [dictSet, if_neg h, List.map_cons, List.mem_cons]
        by_cases h2 : k ∈ List.map (Prod.fst (α := String) (β := α)) rest
        · simp [h2, ih, h']
        · simp [h2, ih, h']

theorem keys_dictSet_nodup {α : Type} (m : List (String × α)) (k : String) (v : α)
    (h : (keys m).Nodup) : (keys (dictSet m k v)).Nodup := by
  rw [keys_dictSet]
  by_cases hm : k ∈ keys m
  · simpa [hm]
  · simp only [hm, if_false]
    simp [List.nodup_append, h, hm]

theorem dictGet_append {α : Type} (m l : List (String × α)) (k : String) :
    dictGet (m ++ l) k =
      (match dictGet m k with
       | some v => some v
       | none => dictGet l k) := by
  induction m with
  | nil => simp [dictGet]
  | cons p rest ih =>
      obtain ⟨k', v'⟩ := p
      by_cases h : k' = k
      · simp [dictGet, h]
      · simp [dictGet, h, ih]

theorem splitLastDunderAux_eq (cs : List Char) (pre post : List Char)
    (h : splitLastDunderAux cs = some (pre, post)) :
    cs = pre ++ '_' :: '_' :: post := by
  induction cs generalizing pre post with
  | nil => simp [splitLastDunderAux] at h
  | cons c1 rest ih =>
      cases rest with
      | nil => simp [splitLastDunderAux] at h
      | cons c2 rest2 =>
          simp only [splitLastDunderAux] at h
          cases hrec : splitLastDunderAux (c2 :: rest2) with
          | some p =>
              obtain ⟨p1, p2⟩ := p
              rw [hrec] at h
              simp at h
              obtain ⟨h1, h2⟩ := h
              have := ih p1 post (by rw [hrec, h2])
              rw [← h1]
              simp [this]
          | none =>
              rw [hrec] at h
              by_cases hu : c1 = '_' ∧ c2 = '_'
              · simp [hu] at h
                obtain ⟨h1, h2⟩ := h
                simp [← h1, ← h2, hu.1, hu.2]
              · simp [hu] at h

theorem splitLastDunder_eq (name : String) (b o : String)
    (h : splitLastDunder name = some (b, o)) :
    name.data = b.data ++ '_' :: '_' :: o.data := by
  simp only [splitLastDunder, Option.map_eq_some'] at h
  obtain ⟨⟨pre, post⟩, haux, heq⟩ := h
  simp at heq
  obtain ⟨h1, h2⟩ := heq
  have := splitLastDunderAux_eq name.data pre post haux
  rw [← h1, ← h2]
  simpa using this

theorem splitLastDunder_inj (m m' b o : String)
    (h : splitLastDunder m = some (b, o)) (h' : splitLastDunder m' = some (b, o)) :
    m = m' := by
  have e1 := splitLastDunder_eq m b o h
  have e2 := splitLastDunder_eq m' b o h'
  cases m with
  | mk d =>
      cases m' with
      | mk d' =>
          simp only at e1 e2
          rw [show d = d' from e1.trans e2.symm]

/-! Helper lemmas about the plugin functions. -/

theorem fieldsLookup_parts (name inst : String) (fields : Fields) (st : PState)
    (calls : List RemoteCall) :
    (fieldsLookup name inst fields st calls).1.RECORD_CACHE = st.RECORD_CACHE ∧
    (fieldsLookup name inst fields st calls).2.1 = calls ∧
    (fieldsLookup name inst fields st calls).2.2 =
      (match dictGet fields name with
       | some v => Except.ok (ResolveResult.value v)
       | none => Except.ok (ResolveResult.unknown name)) := by
  cases h : dictGet fields name <;> simp [fieldsLookup, h]

theorem get_cached (e : String) (store : Store) (name inst : String) (st : PState)
    (fields : Fields) (h : dictGet st.RECORD_CACHE inst = some fields) :
    get (some e) store name inst st = fieldsLookup name inst fields st [] := by
  simp [get, h]

theorem get_fetch200 (e : String) (store : Store) (name inst rid : String)
    (st : PState)
    (hc : dictGet st.RECORD_CACHE inst = none)
    (hu : uuidParse inst = some rid)
    (h200 : (store.getRecord rid).code = 200) :
    get (some e) store name inst st =
      fieldsLookup name inst (store.getRecord rid).fields
        { st with RECORD_CACHE := dictSet st.RECORD_CACHE inst (store.getRecord rid).fields }
        [RemoteCall.getRecord e rid] := by
  simp [get, hc, hu, h200]

theorem type_to_map_entOne : type_to_map entOne = .ok tmOne := rfl

/-! The claims. -/

/-- Claim C2 counterexample: the claim says `report` with an unset environment
fails with a configuration error for EVERY value, the environment precondition
being checked before the unknown-value suppression check. At the concrete
input below (environment unset, value the Unknown marker itself) `report`
returns successfully without raising, refuting the claim. -/
theorem report_skips_env_check_when_unknown :
    report none store200 "p" "inmanta.execute.util.Unknown" ⟨[], []⟩ =
      (⟨[], []⟩, [], .ok none) := rfl

/-- Claim C2 (corrected): with the environment unset, `report(name, value)`
raises the configuration error for every value whose text does not contain
the Unknown marker; a value containing the marker is suppressed FIRST and
returns silently even though the environment is unset (the suppression check
precedes the environment check). -/
theorem report_env_unset (store : Store) (name value : String) (st : PState) :
    (containsB unknownMarker.data value.data = false →
       report none store name value st = (st, [], .error .envNotConfigured)) ∧
    (containsB unknownMarker.data value.data = true →
       report none store name value st = (st, [], .ok none)) := by
  constructor
  · intro h
    simp [report, h]
  · intro h
    simp [report, h]

/-- Claim C2 witness: the corrected claim applied at a concrete value. -/
theorem report_env_unset_witness :
    report none store200 "out" "x" ⟨[], []⟩ = (⟨[], []⟩, [], .error .envNotConfigured) :=
  (report_env_unset store200 "out" "x" ⟨[], []⟩).1 rfl

/-- Claim C6 (confirmed): with a configured environment, `report` with a value
whose text contains the Unknown marker performs no store call, registers
nothing and returns without error; with any other value it performs exactly
one `set_param` call with source `"report"` and metadata
`{type: "report"}` and returns its result. -/
theorem report_configured (e : String) (store : Store) (name value : String)
    (st : PState) :
    (containsB unknownMarker.data value.data = true →
       report (some e) store name value st = (st, [], .ok none)) ∧
    (containsB unknownMarker.data value.data = false →
       report (some e) store name value st =
         (st, [RemoteCall.setParam e name value "report" [("type", "report")]],
          .ok (some (store.setParam name value)))) := by
  constructor
  · intro h
    simp [report, h]
  · intro h
    simp [report, h]

/-- Claim C6 witness: both branches at concrete values. -/
theorem report_configured_witness :
    report (some "env") store200 "out" "a inmanta.execute.util.Unknown b" ⟨[], []⟩ =
      (⟨[], []⟩, [], .ok none) ∧
    report (some "env") store200 "out" "42" ⟨[], []⟩ =
      (⟨[], []⟩, [RemoteCall.setParam "env" "out" "42" "report" [("type", "report")]],
       .ok (some (store200.setParam "out" "42"))) :=
  ⟨(report_configured "env" store200 "out" "a inmanta.execute.util.Unknown b" ⟨[], []⟩).1 rfl,
   (report_configured "env" store200 "out" "42" ⟨[], []⟩).2 rfl⟩

/-- Claim C9 (confirmed): `get` with a configured environment, an instance
that is not cached and does not parse as a UUID (the default `""` argument
included) raises the parse error before issuing any remote call — no Unknown
entry is registered and no sentinel is returned (the state is unchanged and
the call trace is empty). -/
theorem get_invalid_uuid_raises (e : String) (store : Store) (name inst : String)
    (st : PState)
    (hc : dictGet st.RECORD_CACHE inst = none)
    (hu : uuidParse inst = none) :
    get (some e) store name inst st = (st, [], .error .uuidValueError) := by
  simp [get, hc, hu]

/-- Claim C9 witness: the default empty-string instance. -/
theorem get_invalid_uuid_raises_witness :
    get (some "env") store200 "p" "" ⟨[], []⟩ = (⟨[], []⟩, [], .error .uuidValueError) :=
  get_invalid_uuid_raises "env" store200 "p" "" ⟨[], []⟩ rfl rfl

/-- Claim C8 (confirmed): when the record is found — in the cache, or fetched
with a 200 response — but `name` is not among its fields, `get` returns the
Unknown sentinel and appends exactly one registry entry
`{parameter: name, source: "form", metadata: {type: "form", record_id: instance}}`,
without raising. -/
theorem get_missing_field_unknown (e : String) (store : Store) (name inst : String)
    (st : PState) :
    (∀ fields, dictGet st.RECORD_CACHE inst = some fields → dictGet fields name = none →
       get (some e) store name inst st =
         ({ st with unknown_parameters := st.unknown_parameters ++
              [⟨name, "form", [("type", "form"), ("record_id", inst)]⟩] },
          [], .ok (.unknown name))) ∧
    (∀ rid, dictGet st.RECORD_CACHE inst = none → uuidParse inst = some rid →
       (store.getRecord rid).code = 200 →
       dictGet (store.getRecord rid).fields name = none →
       get (some e) store name inst st =
         ({ st with RECORD_CACHE := dictSet st.RECORD_CACHE inst (store.getRecord rid).fields,
                    unknown_parameters := st.unknown_parameters ++
              [⟨name, "form", [("type", "form"), ("record_id", inst)]⟩] },
          [RemoteCall.getRecord e rid], .ok (.unknown name))) := by
  constructor
  · intro fields h hn
    rw [get_cached e store name inst st fields h]
    simp [fieldsLookup, hn, formRecordMeta]
  · intro rid hc hu h200 hn
    rw [get_fetch200 e store name inst rid st hc hu h200]
    simp [fieldsLookup, hn, formRecordMeta]

/-- Claim C8 witness: cache-hit case at a concrete state. -/
theorem get_missing_field_unknown_witness :
    get (some "env") store200 "b" "r1" ⟨[("r1", [("a", .vstr "1")])], []⟩ =
      (⟨[("r1", [("a", .vstr "1")])],
        [⟨"b", "form", [("type", "form"), ("record_id", "r1")]⟩]⟩,
       [], .ok (.unknown "b")) :=
  (get_missing_field_unknown "env" store200 "b" "r1"
      ⟨[("r1", [("a", .vstr "1")])], []⟩).1 [("a", .vstr "1")] rfl rfl

/-- Claim C5 (confirmed): two successive `get` calls for the same instance,
the first of which fetches successfully, issue exactly one `get_record` call
in total: the first call issues it and stores the fetched fields in the
cache, the second call issues no remote call and its result is determined by
the very fields mapping the first call stored. -/
theorem get_single_fetch_cached (e : String) (store : Store)
    (name1 name2 inst rid : String) (st : PState)
    (hc : dictGet st.RECORD_CACHE inst = none)
    (hu : uuidParse inst = some rid)
    (h200 : (store.getRecord rid).code = 200) :
    ∃ st1 r1,
      get (some e) store name1 inst st = (st1, [RemoteCall.getRecord e rid], r1) ∧
      dictGet st1.RECORD_CACHE inst = some (store.getRecord rid).fields ∧
      (get (some e) store name2 inst st1).2.1 = [] ∧
      (get (some e) store name2 inst st1).2.2 =
        (match dictGet (store.getRecord rid).fields name2 with
         | some v => Except.ok (ResolveResult.value v)
         | none => Except.ok (ResolveResult.unknown name2)) := by
  rw [get_fetch200 e store name1 inst rid st hc hu h200]
  cases hn1 : dictGet (store.getRecord rid).fields name1 with
  | some v =>
      refine ⟨{ st with RECORD_CACHE := dictSet st.RECORD_CACHE inst (store.getRecord rid).fields },
              .ok (.value v), ?_, ?_, ?_, ?_⟩
      · simp [fieldsLookup, hn1]
      · exact dictGet_dictSet_self st.RECORD_CACHE inst (store.getRecord rid).fields
      · rw [get_cached e store name2 inst _ (store.getRecord rid).fields
              (dictGet_dictSet_self st.RECORD_CACHE inst (store.getRecord rid).fields)]
        exact (fieldsLookup_parts name2 inst (store.getRecord rid).fields _ []).2.1
      · rw [get_cached e store name2 inst _ (store.getRecord rid).fields
              (dictGet_dictSet_self st.RECORD_CACHE inst (store.getRecord rid).fields)]
        exact (fieldsLookup_parts name2 inst (store.getRecord rid).fields _ []).2.2
  | none =>
      refine ⟨{ st with RECORD_CACHE := dictSet st.RECORD_CACHE inst (store.getRecord rid).fields,
                        unknown_parameters := st.unknown_parameters ++
                          [⟨name1, "form", formRecordMeta inst⟩] },
              .ok (.unknown name1), ?_, ?_, ?_, ?_⟩
      · simp [fieldsLookup, hn1]
      · exact dictGet_dictSet_self st.RECORD_CACHE inst (store.getRecord rid).fields
      · rw [get_cached e store name2 inst _ (store.getRecord rid).fields
              (dictGet_dictSet_self st.RECORD_CACHE inst (store.getRecord rid).fields)]
        exact (fieldsLookup_parts name2 inst (store.getRecord rid).fields _ []).2.1
      · rw [get_cached e store name2 inst _ (store.getRecord rid).fields
              (dictGet_dictSet_self st.RECORD_CACHE inst (store.getRecord rid).fields)]
        exact (fieldsLookup_parts name2 inst (store.getRecord rid).fields _ []).2.2

/-- Claim C5 witness: two calls against a concrete store, one fetch total. -/
theorem get_single_fetch_cached_witness :
    ∃ st1 r1,
      get (some "env")
          ⟨fun _ => ⟨200, [("a", .vstr "va")], "rid"⟩, fun _ _ => ⟨200, [], ""⟩,
           fun _ _ => .vstr "ok"⟩
          "a" "12345678-1234-5678-1234-567812345678" ⟨[], []⟩ =
        (st1, [RemoteCall.getRecord "env" "12345678123456781234567812345678"], r1) ∧
      dictGet st1.RECORD_CACHE "12345678-1234-5678-1234-567812345678" =
        some [("a", .vstr "va")] ∧
      (get (some "env")
          ⟨fun _ => ⟨200, [("a", .vstr "va")], "rid"⟩, fun _ _ => ⟨200, [], ""⟩,
           fun _ _ => .vstr "ok"⟩
          "a" "12345678-1234-5678-1234-567812345678" st1).2.1 = [] ∧
      (get (some "env")
          ⟨fun _ => ⟨200, [("a", .vstr "va")], "rid"⟩, fun _ _ => ⟨200, [], ""⟩,
           fun _ _ => .vstr "ok"⟩
          "a" "12345678-1234-5678-1234-567812345678" st1).2.2 =
        (match dictGet [("a", Value.vstr "va")] "a" with
         | some v => Except.ok (ResolveResult.value v)
         | none => Except.ok (ResolveResult.unknown "a")) :=
  get_single_fetch_cached "env"
    ⟨fun _ => ⟨200, [("a", .vstr "va")], "rid"⟩, fun _ _ => ⟨200, [], ""⟩,
     fun _ _ => .vstr "ok"⟩
    "a" "a" "12345678-1234-5678-1234-567812345678"
    "12345678123456781234567812345678" ⟨[], []⟩ rfl rfl rfl

/-- Claim C7 (confirmed): when the derived schema's options lack a
`record_count` key or bind it to a value other than `1`, `one` fails fatally
for every store and state, before any remote call: the call trace is empty
and the state is unchanged. -/
theorem one_requires_singleton (e : String) (store : Store) (name : String)
    (entity : Entity) (st : PState) (tm : TypeMap)
    (htm : type_to_map entity = .ok tm)
    (h : dictGet tm.options "record_count" = none ∨
         ∃ rc, dictGet tm.options "record_count" = some rc ∧ pyEq rc (.vint 1) = false) :
    one (some e) store name entity st = (st, [], .error .notSingletonForm) := by
  rcases h with h | ⟨rc, h1, h2⟩
  · simp [one, htm, h]
  · simp [one, htm, h1, h2]

/-- Claim C7 witness: an entity with no `record_count` option. -/
theorem one_requires_singleton_witness :
    one (some "env") store200 "a" entPlain ⟨[], []⟩ =
      (⟨[], []⟩, [], .error .notSingletonForm) :=
  one_requires_singleton "env" store200 "a" entPlain ⟨[], []⟩ tmPlain rfl (Or.inl rfl)

/-- Claim C1 counterexample: the claim says that with a valid singleton
schema, a not-found (404) listing response is a zero-records case that is
handled without raising. At the concrete input below (`entOne`, whose schema
declares `record_count = 1` and no default for `hostname`, against a store
whose listing answers 404) `one` raises the listing error instead of
registering an Unknown entry, because the raise on any non-200 code at line
218 precedes the dead `result.code == 404` test of line 221. -/
theorem one_notFound_raises :
    one (some "env") store404 "hostname" entOne ⟨[], []⟩ =
      (⟨[], []⟩,
       [RemoteCall.putForm "env" tmOne.type tmOne,
        RemoteCall.listRecords "env" tmOne.type false],
       .error (.listFailed 404 "not found")) := rfl

/-- Claim C1 (corrected): for `one(name, entity)` with configured
environment, a valid singleton schema and a listing response with code 200
and an empty record list — the only reachable zero-records case, since a
not-found (404) listing response raises at the non-200 check — the declared
default for `name` is returned with no Unknown entry appended; without a
default, exactly one Unknown entry
`{parameter: name, source: "form", metadata: {type: "form", form: entity-type}}`
is appended and the Unknown sentinel is returned, without raising. -/
theorem one_zero_records (e : String) (store : Store) (name : String)
    (entity : Entity) (st : PState) (tm : TypeMap) (rc : Value) (spec : AttrSpec)
    (htm : type_to_map entity = .ok tm)
    (hrc : dictGet tm.options "record_count" = some rc)
    (hrc1 : pyEq rc (.vint 1) = true)
    (hattr : dictGet tm.attributes name = some spec)
    (hcode : (store.listRecords tm.type false).code = 200)
    (hrecs : (store.listRecords tm.type false).records = []) :
    (∀ d, spec.default = some d →
       one (some e) store name entity st =
         (st, [RemoteCall.putForm e tm.type tm, RemoteCall.listRecords e tm.type false],
          .ok (.value d))) ∧
    (spec.default = none →
       one (some e) store name entity st =
         ({ st with unknown_parameters := st.unknown_parameters ++
              [⟨name, "form", [("type", "form"), ("form", tm.type)]⟩] },
          [RemoteCall.putForm e tm.type tm, RemoteCall.listRecords e tm.type false],
          .ok (.unknown name))) := by
  constructor
  · intro d hd
    simp [one, htm, hrc, hrc1, hattr, hcode, hrecs, oneZeroRecords, hd]
  · intro hd
    simp [one, htm, hrc, hrc1, hattr, hcode, hrecs, oneZeroRecords, hd]

/-! Lemmas about the inheritance-flattening working set (lines 38-46). -/

theorem insertAbsent_preserve (m : List (String × AttrDescr)) (p : String × AttrDescr)
    (k : String) (v : AttrDescr) (h : dictGet m k = some v) :
    dictGet (insertAbsent m p) k = some v := by
  unfold insertAbsent
  cases hs : (dictGet m p.1).isSome with
  | true => simp [hs, h]
  | false =>
      rw [if_neg (by simp [hs])]
      rw [dictGet_append, h]

theorem keys_insertAbsent (m : List (String × AttrDescr)) (p : String × AttrDescr) :
    keys (insertAbsent m p) = if p.1 ∈ keys m then keys m else keys m ++ [p.1] := by
  unfold insertAbsent
  cases hs : (dictGet m p.1).isSome with
  | true =>
      have hmem := (dictGet_isSome_iff m p.1).1 hs
      simp [hs, hmem]
  | false =>
      have hmem : p.1 ∉ keys m := by
        rw [← dictGet_isSome_iff]
        simp [hs]
      rw [if_neg (by simp [hs]), if_neg hmem]
      simp [keys]

theorem mem_keys_insertAbsent (m : List (String × AttrDescr)) (p : String × AttrDescr)
    (k : String) : k ∈ keys (insertAbsent m p) ↔ k ∈ keys m ∨ k = p.1 := by
  rw [keys_insertAbsent]
  by_cases hm : p.1 ∈ keys m
  · simp only [hm, if_true]
    constructor
    · exact Or.inl
    · rintro (h | rfl)
      · exact h
      · exact hm
  · simp [hm]

theorem keys_insertAbsent_nodup (m : List (String × AttrDescr)) (p : String × AttrDescr)
    (h : (keys m).Nodup) : (keys (insertAbsent m p)).Nodup := by
  rw [keys_insertAbsent]
  by_cases hm : p.1 ∈ keys m
  · simpa [hm]
  · simp [hm, List.nodup_append, h]

theorem foldl_insertAbsent_preserve (L : List (String × AttrDescr))
    (m : List (String × AttrDescr)) (k : String) (v : AttrDescr)
    (h : dictGet m k = some v) : dictGet (L.foldl insertAbsent m) k = some v := by
  induction L generalizing m with
  | nil => simpa
  | cons p rest ih => exact ih _ (insertAbsent_preserve m p k v h)

theorem keys_foldl_insertAbsent_nodup (L : List (String × AttrDescr))
    (m : List (String × AttrDescr)) (h : (keys m).Nodup) :
    (keys (L.foldl insertAbsent m)).Nodup := by
  induction L generalizing m with
  | nil => simpa
  | cons p rest ih => exact ih _ (keys_insertAbsent_nodup m p h)

theorem mem_keys_foldl_insertAbsent (L : List (String × AttrDescr))
    (m : List (String × AttrDescr)) (k : String) :
    k ∈ keys (L.foldl insertAbsent m) ↔ k ∈ keys m ∨ k ∈ keys L := by
  induction L generalizing m with
  | nil => simp [keys]
  | cons p rest ih =>
      simp only [List.foldl_cons]
      rw [ih, mem_keys_insertAbsent]
      simp only [keys, List.map_cons, List.mem_cons]
      tauto

theorem addParentAttrs_preserve (m : List (String × AttrDescr)) (parent : Entity)
    (k : String) (v : AttrDescr) (h : dictGet m k = some v) :
    dictGet (addParentAttrs m parent) k = some v := by
  unfold addParentAttrs
  by_cases hp : parent.name = "Entity" ∧ parent.namespaceFullName = "std"
  · simp [hp, h]
  · simp only [hp, if_false]
    exact foldl_insertAbsent_preserve parent.attributes m k v h

theorem keys_addParentAttrs_nodup (m : List (String × AttrDescr)) (parent : Entity)
    (h : (keys m).Nodup) : (keys (addParentAttrs m parent)).Nodup := by
  unfold addParentAttrs
  by_cases hp : parent.name = "Entity" ∧ parent.namespaceFullName = "std"
  · simpa [hp]
  · simp only [hp, if_false]
    exact keys_foldl_insertAbsent_nodup parent.attributes m h

theorem mem_keys_addParentAttrs (m : List (String × AttrDescr)) (parent : Entity)
    (k : String) :
    k ∈ keys (addParentAttrs m parent) ↔
      k ∈ keys m ∨
        (¬(parent.name = "Entity" ∧ parent.namespaceFullName = "std") ∧
         k ∈ keys parent.attributes) := by
  unfold addParentAttrs
  by_cases hp : parent.name = "Entity" ∧ parent.namespaceFullName = "std"
  · simp [hp]
  · simp only [hp, if_false]
    rw [mem_keys_foldl_insertAbsent]
    tauto

theorem foldl_addParent_preserve (ps : List Entity) (m : List (String × AttrDescr))
    (k : String) (v : AttrDescr) (h : dictGet m k = some v) :
    dictGet (ps.foldl addParentAttrs m) k = some v := by
  induction ps generalizing m with
  | nil => simpa
  | cons p rest ih => exact ih _ (addParentAttrs_preserve m p k v h)

theorem keys_foldl_addParent_nodup (ps : List Entity) (m : List (String × AttrDescr))
    (h : (keys m).Nodup) : (keys (ps.foldl addParentAttrs m)).Nodup := by
  induction ps generalizing m with
  | nil => simpa
  | cons p rest ih => exact ih _ (keys_addParentAttrs_nodup m p h)

theorem mem_keys_foldl_addParent (ps : List Entity) (m : List (String × AttrDescr))
    (k : String) :
    k ∈ keys (ps.foldl addParentAttrs m) ↔
      k ∈ keys m ∨
        ∃ p ∈ ps, ¬(p.name = "Entity" ∧ p.namespaceFullName = "std") ∧
          k ∈ keys p.attributes := by
  induction ps generalizing m with
  | nil => simp
  | cons p rest ih =>
      simp only [List.foldl_cons]
      rw [ih, mem_keys_addParentAttrs]
      simp only [List.mem_cons]
      constructor
      · rintro (( h | h) | ⟨q, hq, hns, hk⟩)
        · exact Or.inl h
        · exact Or.inr ⟨p, Or.inl rfl, h.1, h.2⟩
        · exact Or.inr ⟨q, Or.inr hq, hns, hk⟩
      · rintro (h | ⟨q, (rfl | hq), hns, hk⟩)
        · exact Or.inl (Or.inl h)
        · exact Or.inl (Or.inr ⟨hns, hk⟩)
        · exact Or.inr ⟨q, hq, hns, hk⟩

/-- Claim C3 (confirmed): in the working set derived from an entity whose own
attribute names are distinct (they come from a Python dict), every attribute
name of the entity's own and inherited attribute set — excluding the
implicit universal base type `std::Entity` — appears exactly once, and a
name the subtype itself declares keeps the subtype's descriptor (the
supertype's descriptor of the same name is ignored). -/
theorem collect_attributes_spec (cls : Entity)
    (hnd : (keys cls.attributes).Nodup) :
    (∀ k v, dictGet cls.attributes k = some v → dictGet (collectAttributes cls) k = some v) ∧
    (∀ k, k ∈ keys (collectAttributes cls) ↔
       (k ∈ keys cls.attributes ∨
        ∃ p ∈ cls.parents, ¬(p.name = "Entity" ∧ p.namespaceFullName = "std") ∧
          k ∈ keys p.attributes)) ∧
    (∀ k, k ∈ keys (collectAttributes cls) → (keys (collectAttributes cls)).count k = 1) := by
  refine ⟨?_, ?_, ?_⟩
  · intro k v h
    exact foldl_addParent_preserve cls.parents cls.attributes k v h
  · intro k
    exact mem_keys_foldl_addParent cls.parents cls.attributes k
  · intro k hk
    exact List.count_eq_one_of_mem
      (keys_foldl_addParent_nodup cls.parents cls.attributes hnd) hk

/-- Claim C3 witness: the subtype's `y` descriptor wins and `y` appears
exactly once in `entChild`'s working set. -/
theorem collect_attributes_spec_witness :
    dictGet (collectAttributes entChild) "y" = some ⟨"string"⟩ ∧
    (keys (collectAttributes entChild)).count "y" = 1 :=
  ⟨(collect_attributes_spec entChild (by decide)).1 "y" ⟨"string"⟩ rfl,
   (collect_attributes_spec entChild (by decide)).2.2 "y" (by decide)⟩

/-! Lemmas about the classification loop (lines 48-60). -/

theorem stepOne_poison (D : List (String × Option Value)) (n : String) (a : AttrDescr)
    (acc : Acc) (b o : String)
    (hsplit : splitLastDunder n = some (b, o))
    (hbad : dictGet D n = none ∨ dictGet D n = some none) :
    ∀ acc', stepOne D n a acc ≠ .ok acc' := by
  intro acc' hok
  have hdata := splitLastDunder_eq n b o hsplit
  cases hnd : n.data with
  | nil =>
      rw [hnd] at hdata
      exact absurd hdata (by cases hb : b.data <;> simp [hb])
  | cons c cs =>
      simp only [stepOne, hnd] at hok
      rcases hbad with hbad | hbad <;>
        by_cases hc : c = '_' <;>
          simp [hc, hbad, processOne, hsplit] at hok

theorem processAttrs_no_ok_of_poison (D : List (String × Option Value))
    (L : List (String × AttrDescr)) (n : String) (a : AttrDescr) (b o : String)
    (hm : (n, a) ∈ L)
    (hsplit : splitLastDunder n = some (b, o))
    (hbad : dictGet D n = none ∨ dictGet D n = some none) :
    ∀ acc acc', processAttrs D L acc ≠ .ok acc' := by
  revert hm
  induction L with
  | nil =>
      intro hm
      cases hm
  | cons p rest ih =>
      intro hm acc acc' hok
      obtain ⟨n0, a0⟩ := p
      rcases List.mem_cons.1 hm with heq | hmem
      · have hn : n0 = n := (congrArg Prod.fst heq).symm
        have ha : a0 = a := (congrArg Prod.snd heq).symm
        subst hn
        subst ha
        cases hstep : stepOne D n0 a0 acc with
        | ok acc2 => exact stepOne_poison D n0 a0 acc b o hsplit hbad acc2 hstep
        | error e =>
            simp only [processAttrs, hstep] at hok
            cases hok
      · cases hstep : stepOne D n0 a0 acc with
        | ok acc2 =>
            simp only [processAttrs, hstep] at hok
            exact ih hmem acc2 acc' hok
        | error e =>
            simp only [processAttrs, hstep] at hok
            cases hok

/-- Claim C10 (confirmed): an attribute of the working set whose name matches
the per-attribute-option pattern `base__option` evaluates its default
unconditionally, so when no default is recorded for it — or the recorded
default is null — schema derivation raises (a `KeyError`, respectively an
`AttributeError` on `None`) instead of producing a schema. The schema-level
option branch cannot capture such a name either, as it requires a non-null
recorded default. -/
theorem type_to_map_needs_option_default (cls : Entity) (n : String) (a : AttrDescr)
    (b o : String)
    (hm : (n, a) ∈ collectAttributes cls)
    (hsplit : splitLastDunder n = some (b, o))
    (hbad : dictGet cls.defaults n = none ∨ dictGet cls.defaults n = some none) :
    ∃ err, type_to_map cls = .error err := by
  cases htm : processAttrs cls.defaults (collectAttributes cls) ⟨[], [], []⟩ with
  | error e => exact ⟨e, by simp [type_to_map, htm]⟩
  | ok acc =>
      exact absurd htm
        (processAttrs_no_ok_of_poison cls.defaults (collectAttributes cls) n a b o
          hm hsplit hbad ⟨[], [], []⟩ acc)

/-- Claim C10 witness: derivation fails on `entBadOpt`. -/
theorem type_to_map_needs_option_default_witness :
    ∃ err, type_to_map entBadOpt = .error err :=
  type_to_map_needs_option_default entBadOpt "a__x" ⟨"string"⟩ "a" "x"
    (by decide) rfl (Or.inl rfl)

/-! Lemmas tracking the classification loop accumulator for Claim C4. -/

theorem stepOne_cases (D : List (String × Option Value)) (n : String) (a : AttrDescr)
    (acc acc' : Acc) (hok : stepOne D n a acc = .ok acc') :
    (acc'.fields = acc.fields ∧ acc'.aopts = acc.aopts) ∨
    (∃ b o v, splitLastDunder n = some (b, o) ∧ acc'.fields = acc.fields ∧
       acc'.aopts = dictSet acc.aopts b (dictSet ((dictGet acc.aopts b).getD []) o v)) ∨
    (splitLastDunder n = none ∧ acc'.aopts = acc.aopts ∧
       acc'.fields = dictSet acc.fields n
         { type := a.type_string, default := defaultOf D n, options := none }) := by
  cases hnd : n.data with
  | nil => simp [stepOne, hnd] at hok
  | cons c cs =>
      simp only [stepOne, hnd] at hok
      cases hsc : (if c = '_' then dictGet D n else none) with
      | some ov =>
          cases ov with
          | some v =>
              simp only [hsc] at hok
              cases hok
              exact Or.inl ⟨rfl, rfl⟩
          | none =>
              simp only [hsc, processOne] at hok
              cases hsp : splitLastDunder n with
              | some bo =>
                  obtain ⟨b, o⟩ := bo
                  simp only [hsp] at hok
                  cases hdn : dictGet D n with
                  | some ov2 =>
                      cases ov2 with
                      | some v =>
                          simp only [hdn] at hok
                          cases hok
                          exact Or.inr (Or.inl ⟨b, o, v, rfl, rfl, rfl⟩)
                      | none => simp [hdn] at hok
                  | none => simp [hdn] at hok
              | none =>
                  simp only [hsp] at hok
                  cases hok
                  exact Or.inr (Or.inr ⟨rfl, rfl, rfl⟩)
      | none =>
          simp only [hsc, processOne] at hok
          cases hsp : splitLastDunder n with
          | some bo =>
              obtain ⟨b, o⟩ := bo
              simp only [hsp] at hok
              cases hdn : dictGet D n with
              | some ov2 =>
                  cases ov2 with
                  | some v =>
                      simp only [hdn] at hok
                      cases hok
                      exact Or.inr (Or.inl ⟨b, o, v, rfl, rfl, rfl⟩)
                  | none => simp [hdn] at hok
              | none => simp [hdn] at hok
          | none =>
              simp only [hsp] at hok
              cases hok
              exact Or.inr (Or.inr ⟨rfl, rfl, rfl⟩)

theorem stepOne_plain (D : List (String × Option Value)) (n : String) (a : AttrDescr)
    (acc : Acc) (hplain : isPlain n = true) :
    stepOne D n a acc = .ok { acc with fields :=
      (dictSet acc.fields n
        { type := a.type_string, default := defaultOf D n, options := none }) } := by
  unfold isPlain at hplain
  cases hnd : n.data with
  | nil =>
      rw [hnd] at hplain
      cases hplain
  | cons c cs =>
      rw [hnd] at hplain
      simp only [Bool.and_eq_true, bne_iff_ne, ne_eq, decide_eq_true_eq,
        Option.isNone_iff_eq_none] at hplain
      obtain ⟨hc, hsp⟩ := hplain
      simp only [stepOne, hnd, if_neg hc]
      simp [processOne, hsp]

theorem stepOne_optwrite (D : List (String × Option Value)) (n : String) (a : AttrDescr)
    (acc : Acc) (b o : String) (v : Value)
    (hsplit : splitLastDunder n = some (b, o))
    (hhead : ∃ c cs, n.data = c :: cs ∧ c ≠ '_')
    (hdef : dictGet D n = some (some v)) :
    stepOne D n a acc = .ok { acc with aopts :=
      (dictSet acc.aopts b (dictSet ((dictGet acc.aopts b).getD []) o v)) } := by
  obtain ⟨c, cs, hnd, hc⟩ := hhead
  simp only [stepOne, hnd, if_neg hc]
  simp [processOne, hsplit, hdef]

theorem split_head_ne_underscore (n b o : String)
    (hsplit : splitLastDunder n = some (b, o)) (hb : isPlain b = true) :
    ∃ c cs, n.data = c :: cs ∧ c ≠ '_' := by
  have hdata := splitLastDunder_eq n b o hsplit
  unfold isPlain at hb
  cases hbd : b.data with
  | nil =>
      rw [hbd] at hb
      cases hb
  | cons c cs =>
      rw [hbd] at hb
      simp only [Bool.and_eq_true, bne_iff_ne, ne_eq, decide_eq_true_eq] at hb
      exact ⟨c, cs ++ '_' :: '_' :: o.data, by rw [hdata, hbd]; simp, hb.1⟩

theorem lookup2_dictSet_self (A : List (String × List (String × Value)))
    (b o : String) (v : Value) :
    lookup2 (dictSet A b (dictSet ((dictGet A b).getD []) o v)) b o = some v := by
  unfold lookup2
  rw [dictGet_dictSet_self]
  simp [dictGet_dictSet_self]

theorem lookup2_dictSet_other (A : List (String × List (String × Value)))
    (b0 o0 : String) (v : Value) (b o : String) (h : ¬(b0 = b ∧ o0 = o)) :
    lookup2 (dictSet A b0 (dictSet ((dictGet A b0).getD []) o0 v)) b o =
      lookup2 A b o := by
  by_cases hb : b0 = b
  · subst hb
    have ho : o0 ≠ o := fun h' => h ⟨rfl, h'⟩
    unfold lookup2
    rw [dictGet_dictSet_self]
    simp only [Option.getD_some]
    exact dictGet_dictSet_ne _ _ _ _ (Ne.symm ho)
  · unfold lookup2
    rw [dictGet_dictSet_ne _ _ _ _ (Ne.symm hb)]

theorem processAttrs_fields_frame (D : List (String × Option Value))
    (L : List (String × AttrDescr)) (X : String) (out : Acc) :
    ∀ acc, X ∉ keys L → processAttrs D L acc = .ok out →
      dictGet out.fields X = dictGet acc.fields X := by
  induction L with
  | nil =>
      intro acc _ hok
      simp only [processAttrs] at hok
      cases hok
      rfl
  | cons p rest ih =>
      intro acc hX hok
      obtain ⟨n0, a0⟩ := p
      have hne : X ≠ n0 := by
        intro h
        exact hX (by simp [keys, h])
      have hX' : X ∉ keys rest := by
        intro h
        exact hX (by simp [keys] at h ⊢; exact Or.inr h)
      cases hstep : stepOne D n0 a0 acc with
      | error e =>
          simp only [processAttrs, hstep] at hok
          cases hok
      | ok acc2 =>
          simp only [processAttrs, hstep] at hok
          have h2 := ih acc2 hX' hok
          rcases stepOne_cases D n0 a0 acc acc2 hstep with
            ⟨hf, _⟩ | ⟨b, o, v, _, hf, _⟩ | ⟨_, _, hf⟩
          · rw [h2, hf]
          · rw [h2, hf]
          · rw [h2, hf, dictGet_dictSet_ne _ _ _ _ hne]

theorem processAttrs_slot_frame (D : List (String × Option Value))
    (L : List (String × AttrDescr)) (b o : String) (out : Acc) :
    ∀ acc, (∀ m ∈ keys L, splitLastDunder m ≠ some (b, o)) →
      processAttrs D L acc = .ok out →
      lookup2 out.aopts b o = lookup2 acc.aopts b o := by
  induction L with
  | nil =>
      intro acc _ hok
      simp only [processAttrs] at hok
      cases hok
      rfl
  | cons p rest ih =>
      intro acc hno hok
      obtain ⟨n0, a0⟩ := p
      have hn0 : splitLastDunder n0 ≠ some (b, o) := hno n0 (by simp [keys])
      have hno' : ∀ m ∈ keys rest, splitLastDunder m ≠ some (b, o) := by
        intro m hm
        exact hno m (by simp [keys] at hm ⊢; exact Or.inr hm)
      cases hstep : stepOne D n0 a0 acc with
      | error e =>
          simp only [processAttrs, hstep] at hok
          cases hok
      | ok acc2 =>
          simp only [processAttrs, hstep] at hok
          have h2 := ih acc2 hno' hok
          rcases stepOne_cases D n0 a0 acc acc2 hstep with
            ⟨_, ha⟩ | ⟨b0, o0, v, hsp, _, ha⟩ | ⟨_, ha, _⟩
          · rw [h2, ha]
          · rw [h2, ha]
            refine lookup2_dictSet_other acc.aopts b0 o0 v b o ?_
            rintro ⟨rfl, rfl⟩
            exact hn0 hsp
          · rw [h2, ha]

theorem processAttrs_base_frame (D : List (String × Option Value))
    (L : List (String × AttrDescr)) (b : String) (out : Acc) :
    ∀ acc, (∀ m ∈ keys L, splitsBase m ≠ some b) →
      processAttrs D L acc = .ok out →
      dictGet out.aopts b = dictGet acc.aopts b := by
  induction L with
  | nil =>
      intro acc _ hok
      simp only [processAttrs] at hok
      cases hok
      rfl
  | cons p rest ih =>
      intro acc hno hok
      obtain ⟨n0, a0⟩ := p
      have hn0 : splitsBase n0 ≠ some b := hno n0 (by simp [keys])
      have hno' : ∀ m ∈ keys rest, splitsBase m ≠ some b := by
        intro m hm
        exact hno m (by simp [keys] at hm ⊢; exact Or.inr hm)
      cases hstep : stepOne D n0 a0 acc with
      | error e =>
          simp only [processAttrs, hstep] at hok
          cases hok
      | ok acc2 =>
          simp only [processAttrs, hstep] at hok
          have h2 := ih acc2 hno' hok
          rcases stepOne_cases D n0 a0 acc acc2 hstep with
            ⟨_, ha⟩ | ⟨b0, o0, v, hsp, _, ha⟩ | ⟨_, ha, _⟩
          · rw [h2, ha]
          · rw [h2, ha]
            have hb0 : b0 ≠ b := by
              intro h
              exact hn0 (by simp [splitsBase, hsp, h])
            exact dictGet_dictSet_ne _ _ _ _ (Ne.symm hb0)
          · rw [h2, ha]

theorem processAttrs_aopts_nodup (D : List (String × Option Value))
    (L : List (String × AttrDescr)) (out : Acc) :
    ∀ acc, (keys acc.aopts).Nodup → processAttrs D L acc = .ok out →
      (keys out.aopts).Nodup := by
  induction L with
  | nil =>
      intro acc h hok
      simp only [processAttrs] at hok
      cases hok
      exact h
  | cons p rest ih =>
      intro acc h hok
      obtain ⟨n0, a0⟩ := p
      cases hstep : stepOne D n0 a0 acc with
      | error e =>
          simp only [processAttrs, hstep] at hok
          cases hok
      | ok acc2 =>
          simp only [processAttrs, hstep] at hok
          refine ih acc2 ?_ hok
          rcases stepOne_cases D n0 a0 acc acc2 hstep with
            ⟨_, ha⟩ | ⟨b0, o0, v, _, _, ha⟩ | ⟨_, ha, _⟩
          · rw [ha]; exact h
          · rw [ha]; exact keys_dictSet_nodup _ _ _ h
          · rw [ha]; exact h

theorem processAttrs_fields_write (D : List (String × Option Value))
    (L : List (String × AttrDescr)) (X : String) (aX : AttrDescr) (out : Acc)
    (hplain : isPlain X = true) :
    ∀ acc, (keys L).Nodup → (X, aX) ∈ L → processAttrs D L acc = .ok out →
      dictGet out.fields X =
        some { type := aX.type_string, default := defaultOf D X, options := none } := by
  induction L with
  | nil =>
      intro acc _ hX _
      cases hX
  | cons p rest ih =>
      intro acc hnd hX hok
      obtain ⟨n0, a0⟩ := p
      have hndrest : (keys rest).Nodup := by
        simp only [keys, List.map_cons, List.nodup_cons] at hnd
        exact hnd.2
      rcases List.mem_cons.1 hX with heq | hmem
      · have hn : n0 = X := (congrArg Prod.fst heq).symm
        have ha : a0 = aX := (congrArg Prod.snd heq).symm
        subst hn
        subst ha
        simp only [processAttrs, stepOne_plain D n0 a0 acc hplain] at hok
        have hXrest : n0 ∉ keys rest := by
          simp only [keys, List.map_cons, List.nodup_cons] at hnd
          exact hnd.1
        rw [processAttrs_fields_frame D rest n0 out _ hXrest hok]
        exact dictGet_dictSet_self _ _ _
      · cases hstep : stepOne D n0 a0 acc with
        | error e =>
            simp only [processAttrs, hstep] at hok
            cases hok
        | ok acc2 =>
            simp only [processAttrs, hstep] at hok
            exact ih acc2 hndrest hmem hok

theorem processAttrs_slot_write (D : List (String × Option Value))
    (L : List (String × AttrDescr)) (n b o : String) (v : Value) (out : Acc)
    (hsplit : splitLastDunder n = some (b, o))
    (hb : isPlain b = true)
    (hdef : dictGet D n = some (some v)) :
    ∀ acc, (keys L).Nodup → (∃ an, (n, an) ∈ L) → processAttrs D L acc = .ok out →
      lookup2 out.aopts b o = some v := by
  induction L with
  | nil =>
      intro acc _ hX _
      obtain ⟨an, hX⟩ := hX
      cases hX
  | cons p rest ih =>
      intro acc hnd hX hok
      obtain ⟨an, hX⟩ := hX
      obtain ⟨n0, a0⟩ := p
      have hndrest : (keys rest).Nodup := by
        simp only [keys, List.map_cons, List.nodup_cons] at hnd
        exact hnd.2
      rcases List.mem_cons.1 hX with heq | hmem
      · have hn : n0 = n := (congrArg Prod.fst heq).symm
        have ha : a0 = an := (congrArg Prod.snd heq).symm
        subst hn
        subst ha
        simp only [processAttrs,
          stepOne_optwrite D n0 a0 acc b o v hsplit
            (split_head_ne_underscore n0 b o hsplit hb) hdef] at hok
        have hnorest : ∀ m ∈ keys rest, splitLastDunder m ≠ some (b, o) := by
          intro m hm hms
          have : m = n0 := splitLastDunder_inj m n0 b o hms hsplit
          subst this
          simp only [keys, List.map_cons, List.nodup_cons] at hnd
          exact hnd.1 hm
        rw [processAttrs_slot_frame D rest b o out _ hnorest hok]
        exact lookup2_dictSet_self _ _ _ _
      · cases hstep : stepOne D n0 a0 acc with
        | error e =>
            simp only [processAttrs, hstep] at hok
            cases hok
        | ok acc2 =>
            simp only [processAttrs, hstep] at hok
            exact ih acc2 hndrest ⟨an, hmem⟩ hok

/-! Lemmas about the option-merge loop (lines 62-66). -/

theorem dictGet_mergeStep_ne (F : List (String × AttrSpec))
    (p : String × List (String × Value)) (X : String) (h : p.1 ≠ X) :
    dictGet (mergeStep F p) X = dictGet F X := by
  unfold mergeStep
  cases hf : dictGet F p.1 with
  | none => rfl
  | some spec => exact dictGet_dictSet_ne _ _ _ _ (Ne.symm h)

theorem mergeOptions_absent (A : List (String × List (String × Value))) (X : String)
    (h : dictGet A X = none) :
    ∀ F, dictGet (mergeOptions F A) X = dictGet F X := by
  induction A with
  | nil =>
      intro F
      simp [mergeOptions]
  | cons p rest ih =>
      intro F
      obtain ⟨b1, opts1⟩ := p
      have hb : b1 ≠ X := by
        intro h'
        subst h'
        simp [dictGet] at h
      have hrest : dictGet rest X = none := by
        simpa [dictGet, hb] using h
      show dictGet (mergeOptions (mergeStep F (b1, opts1)) rest) X = dictGet F X
      rw [ih hrest (mergeStep F (b1, opts1))]
      exact dictGet_mergeStep_ne F (b1, opts1) X hb

theorem mergeOptions_present (A : List (String × List (String × Value))) (X : String)
    (opts : List (String × Value)) :
    ∀ F spec, (keys A).Nodup → dictGet A X = some opts → dictGet F X = some spec →
      dictGet (mergeOptions F A) X =
        some { spec with options := some (withModifier opts) } := by
  induction A with
  | nil =>
      intro F spec _ hA _
      simp [dictGet] at hA
  | cons p rest ih =>
      intro F spec hnd hA hF
      obtain ⟨b1, opts1⟩ := p
      have hndrest : (keys rest).Nodup := by
        simp only [keys, List.map_cons, List.nodup_cons] at hnd
        exact hnd.2
      by_cases hb : b1 = X
      · subst hb
        have hopts : opts1 = opts := by
          simpa [dictGet] using hA
        subst hopts
        have hstep : mergeStep F (b1, opts1) =
            dictSet F b1 { spec with options := some (withModifier opts1) } := by
          unfold mergeStep
          rw [hF]
        have hb1rest : b1 ∉ keys rest := by
          simp only [keys, List.map_cons, List.nodup_cons] at hnd
          exact hnd.1
        have hrest : dictGet rest b1 = none := (dictGet_eq_none_iff rest b1).2 hb1rest
        show dictGet (mergeOptions (mergeStep F (b1, opts1)) rest) b1 = _
        rw [mergeOptions_absent rest b1 hrest (mergeStep F (b1, opts1))]
        rw [hstep]
        exact dictGet_dictSet_self _ _ _
      · have hArest : dictGet rest X = some opts := by
          simpa [dictGet, hb] using hA
        show dictGet (mergeOptions (mergeStep F (b1, opts1)) rest) X = _
        refine ih (mergeStep F (b1, opts1)) spec hndrest hArest ?_
        rw [dictGet_mergeStep_ne F (b1, opts1) X hb]
        exact hF

theorem type_to_map_ok_inv (cls : Entity) (tm : TypeMap)
    (htm : type_to_map cls = .ok tm) :
    ∃ acc, processAttrs cls.defaults (collectAttributes cls) ⟨[], [], []⟩ = .ok acc ∧
      tm.attributes = mergeOptions acc.fields acc.aopts := by
  cases hp : processAttrs cls.defaults (collectAttributes cls) ⟨[], [], []⟩ with
  | error e =>
      simp only [type_to_map, hp] at htm
      cases htm
  | ok acc =>
      refine ⟨acc, rfl, ?_⟩
      simp only [type_to_map, hp] at htm
      cases htm
      rfl

/-- Claim C4 (confirmed): for an entity (working set with distinct names)
declaring a plain attribute `X`: (1) if it also declares an attribute whose
name splits as `X __ modifier` with recorded default `"ro"`, the derived
schema has `attributes[X].options.modifier = "ro"`; (2) if no declared
attribute name has `X` as its option base, `attributes[X]` carries no
`options` key; (3) if some declared `X __ opt` with `opt ≠ "modifier"` has a
recorded default but no `X __ modifier` is declared, `attributes[X].options.modifier`
defaults to `"rw"`. -/
theorem type_to_map_modifier_spec (cls : Entity) (X : String) (aX : AttrDescr)
    (tm : TypeMap)
    (hnd : (keys (collectAttributes cls)).Nodup)
    (hX : (X, aX) ∈ collectAttributes cls)
    (hplain : isPlain X = true)
    (htm : type_to_map cls = .ok tm) :
    (∀ m am, (m, am) ∈ collectAttributes cls →
       splitLastDunder m = some (X, "modifier") →
       dictGet cls.defaults m = some (some (.vstr "ro")) →
       ∃ spec opts, dictGet tm.attributes X = some spec ∧
         spec.options = some opts ∧ dictGet opts "modifier" = some (.vstr "ro")) ∧
    ((∀ m ∈ keys (collectAttributes cls), splitsBase m ≠ some X) →
       ∃ spec, dictGet tm.attributes X = some spec ∧ spec.options = none) ∧
    (∀ m am opt v, (m, am) ∈ collectAttributes cls →
       splitLastDunder m = some (X, opt) → opt ≠ "modifier" →
       dictGet cls.defaults m = some (some v) →
       (∀ m' ∈ keys (collectAttributes cls), splitLastDunder m' ≠ some (X, "modifier")) →
       ∃ spec opts, dictGet tm.attributes X = some spec ∧
         spec.options = some opts ∧ dictGet opts "modifier" = some (.vstr "rw")) := by
  obtain ⟨acc, hacc, htma⟩ := type_to_map_ok_inv cls tm htm
  have hfield := processAttrs_fields_write cls.defaults (collectAttributes cls) X aX acc
    hplain ⟨[], [], []⟩ hnd hX hacc
  have haoptsnodup : (keys acc.aopts).Nodup :=
    processAttrs_aopts_nodup cls.defaults (collectAttributes cls) acc ⟨[], [], []⟩
      (by simp [keys]) hacc
  refine ⟨?_, ?_, ?_⟩
  · intro m am hm hsp hdef
    have hslot := processAttrs_slot_write cls.defaults (collectAttributes cls) m X
      "modifier" (.vstr "ro") acc hsp hplain hdef ⟨[], [], []⟩ hnd ⟨am, hm⟩ hacc
    cases hAX : dictGet acc.aopts X with
    | none =>
        rw [lookup2, hAX] at hslot
        simp [dictGet] at hslot
    | some opts0 =>
        have hmod : dictGet opts0 "modifier" = some (.vstr "ro") := by
          rw [lookup2, hAX] at hslot
          simpa using hslot
        have hmerged := mergeOptions_present acc.aopts X opts0 acc.fields _
          haoptsnodup hAX hfield
        rw [htma]
        refine ⟨_, withModifier opts0, hmerged, rfl, ?_⟩
        unfold withModifier
        rw [if_pos (by simp [hmod])]
        exact hmod
  · intro hno
    have hAX : dictGet acc.aopts X = none := by
      rw [processAttrs_base_frame cls.defaults (collectAttributes cls) X acc
            ⟨[], [], []⟩ hno hacc]
      rfl
    rw [htma, mergeOptions_absent acc.aopts X hAX acc.fields]
    exact ⟨_, hfield, rfl⟩
  · intro m am opt v hm hsp hne hdef hnomod
    have hslot := processAttrs_slot_write cls.defaults (collectAttributes cls) m X
      opt v acc hsp hplain hdef ⟨[], [], []⟩ hnd ⟨am, hm⟩ hacc
    have hnomod2 : lookup2 acc.aopts X "modifier" = none := by
      rw [processAttrs_slot_frame cls.defaults (collectAttributes cls) X "modifier" acc
            ⟨[], [], []⟩ hnomod hacc]
      rfl
    cases hAX : dictGet acc.aopts X with
    | none =>
        rw [lookup2, hAX] at hslot
        simp [dictGet] at hslot
    | some opts0 =>
        have hmodnone : dictGet opts0 "modifier" = none := by
          rw [lookup2, hAX] at hnomod2
          simpa using hnomod2
        have hmerged := mergeOptions_present acc.aopts X opts0 acc.fields _
          haoptsnodup hAX hfield
        rw [htma]
        refine ⟨_, withModifier opts0, hmerged, rfl, ?_⟩
        unfold withModifier
        rw [if_neg (by simp [hmodnone])]
        exact dictGet_dictSet_self opts0 "modifier" (.vstr "rw")

/-- Claim C4 witness: all three branches at `entMods`. -/
theorem type_to_map_modifier_spec_witness :
    (∃ spec opts, dictGet tmMods.attributes "x" = some spec ∧
       spec.options = some opts ∧ dictGet opts "modifier" = some (.vstr "ro")) ∧
    (∃ spec, dictGet tmMods.attributes "y" = some spec ∧ spec.options = none) ∧
    (∃ spec opts, dictGet tmMods.attributes "z" = some spec ∧
       spec.options = some opts ∧ dictGet opts "modifier" = some (.vstr "rw")) := by
  refine ⟨?_, ?_, ?_⟩
  · exact (type_to_map_modifier_spec entMods "x" ⟨"string"⟩ tmMods (by decide) (by decide)
      rfl rfl).1 "x__modifier" ⟨"string"⟩ (by decide) rfl rfl
  · refine (type_to_map_modifier_spec entMods "y" ⟨"number"⟩ tmMods (by decide) (by decide)
      rfl rfl).2.1 ?_
    intro m hm
    fin_cases hm <;> decide
  · refine (type_to_map_modifier_spec entMods "z" ⟨"string"⟩ tmMods (by decide) (by decide)
      rfl rfl).2.2 "z__opt" ⟨"string"⟩ "opt" (.vstr "w") (by decide) rfl (by decide) rfl ?_
    intro m hm
    fin_cases hm <;> decide

/-- Claim C1 witness: the corrected claim at `entOne` against an empty
200-listing store, in both the default and the no-default branch. -/
theorem one_zero_records_witness :
    one (some "env") store200 "replicas" entOne ⟨[], []⟩ =
      (⟨[], []⟩,
       [RemoteCall.putForm "env" tmOne.type tmOne,
        RemoteCall.listRecords "env" tmOne.type false],
       .ok (.value (.vint 1))) ∧
    one (some "env") store200 "hostname" entOne ⟨[], []⟩ =
      (⟨[], [⟨"hostname", "form", [("type", "form"), ("form", tmOne.type)]⟩]⟩,
       [RemoteCall.putForm "env" tmOne.type tmOne,
        RemoteCall.listRecords "env" tmOne.type false],
       .ok (.unknown "hostname")) :=
  ⟨(one_zero_records "env" store200 "replicas" entOne ⟨[], []⟩ tmOne (.vint 1)
      ⟨"number", some (.vint 1), none⟩ rfl rfl rfl rfl rfl rfl).1 (.vint 1) rfl,
   (one_zero_records "env" store200 "hostname" entOne ⟨[], []⟩ tmOne (.vint 1)
      ⟨"string", none, none⟩ rfl rfl rfl rfl rfl rfl).2 rfl⟩

end Param
